import Mathlib

/-!
Verification development for the `rhine` chat-orchestration core.

The Rust sources under `src/chat/` are shallowly embedded:
  * `chat_base.rs`   — `Role`, `Message`, `Message::to_api_format`,
    `BaseChat::build_messages`, `BaseChat::send_request`;
  * `chat_single.rs` — `SingleChat::process_tool_call`,
    `SingleChat::get_tool_answer` (the part after the initial model exchange);
  * `chat_tool.rs`   — `ChatTool::get_function` (the extraction step).

Rust strings are modelled as Lean `String` where only construction and
comparison matter, and as `List Char` inside the tool-call pipeline, where
substring removal has to be reasoned about.  JSON values (`serde_json::Value`)
are modelled by the inductive `Json` below; machine integers (`i32`, `i64`)
are modelled as `Int` with explicit two's-complement wrapping where the code
casts or adds.  External collaborators (the HTTP transport, the secondary
model invocation that resolves a tool call, the tokio task join) enter the
embedding as explicit inputs describing their outcome.
-/

namespace Rhine

/-- Type `Role` from `chat_base.rs`: tagged value over
`{System, User, Assistant, Character(name)}`. -/
inductive Role where
  | system : Role
  | user : Role
  | assistant : Role
  | character (name : String) : Role
deriving DecidableEq, Repr

/-- Type `Message` from `chat_base.rs`: a role together with its content. -/
structure Message where
  role : Role
  content : String
deriving DecidableEq, Repr

/-- One entry of the wire-format message array: the Rust code builds a
`HashMap<String,String>` with exactly the keys `"role"` and `"content"`,
which we model as this record. -/
structure ApiMessage where
  role : String
  content : String
deriving DecidableEq, Repr

/-- Method `Message::to_api_format` from `chat_base.rs` (lines 176-208), translated
clause by clause: the first `match` over `self.role`, followed by the
special-case `if let Role::Assistant` block that overwrites the pair. -/
def Message.to_api_format (m : Message) (current_speaker : Role) : ApiMessage :=
  let rc : String × String :=
    match m.role with
    | Role.system => ("system", m.content)
    | Role.user => ("user", m.content)
    | Role.assistant => ("assistant", m.content)
    | Role.character c =>
      if m.role = current_speaker then
        ("assistant", m.content)
      else
        ("user", c ++ " said: " ++ m.content)
  let rc : String × String :=
    match m.role with
    | Role.assistant =>
      if m.role = current_speaker then
        ("assistant", rc.2)
      else
        ("user", "Assistant said: " ++ m.content)
    | _ => rc
  ⟨rc.1, rc.2⟩

/-- The session state of `BaseChat` relevant to rendering and usage
accounting: the character prompt, the stored messages, and the token-usage
counter (an `i32` in Rust, kept as an `Int` on which every update is wrapped
to 32 bits).  The remaining fields of the Rust struct (`model`, `base_url`,
`api_key`, `need_stream`) only parameterize the external HTTP transport and
carry no behaviour of their own in the embedded operations. -/
structure BaseChat where
  character_prompt : String
  messages : List Message
  usage : Int
deriving DecidableEq, Repr

/-- Method `BaseChat::build_messages` from `chat_base.rs` (lines 129-143): a
synthetic system message carrying the character prompt, followed by the
stored messages, each rendered by `to_api_format` — the source passes the
message's *own* role (`m.to_api_format(&m.role)`) as the current speaker. -/
def BaseChat.build_messages (chat : BaseChat) : List ApiMessage :=
  ApiMessage.mk "system" chat.character_prompt ::
    chat.messages.map (fun m => m.to_api_format m.role)

/-- Type `serde_json::Value`, modelled at the interface boundary of the external
`serde_json` crate.  Numbers are modelled as integers — no claim of this
development depends on non-integer JSON numbers. -/
inductive Json where
  | null : Json
  | bool (b : Bool) : Json
  | num (n : Int) : Json
  | str (s : String) : Json
  | arr (elems : List Json) : Json
  | obj (fields : List (String × Json)) : Json
deriving Repr

/-- Indexing `value[key]` on a `serde_json::Value`: field lookup on objects, and
`Null` when the value is not an object or the key is absent. -/
def Json.get (j : Json) (key : String) : Json :=
  match j with
  | Json.obj fields =>
    match fields.find? (fun p => p.1 == key) with
    | some p => p.2
    | none => Json.null
  | _ => Json.null

/-- Indexing `value[i]` on a `serde_json::Value`: element access on
arrays, and `Null` when the value is not an array or the index is out of
range. -/
def Json.idx (j : Json) (i : Nat) : Json :=
  match j with
  | Json.arr elems => (elems.get? i).getD Json.null
  | _ => Json.null

/-- Accessor `Value::as_str`. -/
def Json.as_str (j : Json) : Option String :=
  match j with
  | Json.str s => some s
  | _ => none

/-- Accessor `Value::as_i64`: an integer JSON number inside the `i64` range. -/
def Json.as_i64 (j : Json) : Option Int :=
  match j with
  | Json.num n => if -(2 ^ 63) ≤ n ∧ n < 2 ^ 63 then some n else none
  | _ => none

/-- Two's-complement wrapping into 32 bits, used for the `as i32` cast and
for `i32` addition in `send_request`. -/
def wrap32 (x : Int) : Int :=
  (x + 2 ^ 31) % 2 ^ 32 - 2 ^ 31

/-- Enum `ChatError` from `chat_base.rs`, together with the extra variants that
`chat_tool.rs` and `chat_single.rs` construct on the same enum. -/
inductive ChatError where
  | ParseResponseError : ChatError
  | MissingUsageData : ChatError
  | HttpError (status : Nat) : ChatError
  | UnknownError : ChatError
  | GetJsonError : ChatError
  | GetFunctionError : ChatError
  | AssembleOutputDescriptionError : ChatError
deriving DecidableEq, Repr

/-- The outcome of the `ureq::post(...).send_json(...)` transport call, an
external collaborator: a 2xx response whose body either is (`some`) or is
not (`none`) valid JSON, a non-2xx status code, or a transport-level
failure that is not a status code. -/
inductive HttpResponse where
  | success (body : Option Json) : HttpResponse
  | statusCode (code : Nat) : HttpResponse
  | transportFailure : HttpResponse

/-- Method `BaseChat::send_request` from `chat_base.rs` (lines 93-126), as a
function of the session state and the transport outcome.  It returns the
session state after the call (the Rust method mutates `self`) together
with the result: on a parsed body it adds
`parsed["usage"]["total_tokens"].as_i64()? as i32` to `self.usage`
(failing with `MissingUsageData` when `as_i64` gives nothing), maps a
status code to `HttpError` and any other transport failure to
`UnknownError`. -/
def BaseChat.send_request (chat : BaseChat) (resp : HttpResponse) :
    BaseChat × Except ChatError Json :=
  match resp with
  | HttpResponse.success none => (chat, Except.error ChatError.ParseResponseError)
  | HttpResponse.success (some parsed) =>
    match ((parsed.get "usage").get "total_tokens").as_i64 with
    | none => (chat, Except.error ChatError.MissingUsageData)
    | some n =>
      ({ chat with usage := wrap32 (chat.usage + wrap32 n) }, Except.ok parsed)
  | HttpResponse.statusCode code => (chat, Except.error (ChatError.HttpError code))
  | HttpResponse.transportFailure => (chat, Except.error ChatError.UnknownError)

/-- The session state after a sequence of exchanges, each exchange applying
`send_request` to the transport outcome it received. -/
def BaseChat.exchanges (chat : BaseChat) (resps : List HttpResponse) : BaseChat :=
  resps.foldl (fun c r => (c.send_request r).1) chat

/-- The token count a transport outcome reports: the value `send_request`
would read out of the body, when the exchange completes. -/
def HttpResponse.tokensOf (resp : HttpResponse) : Option Int :=
  match resp with
  | HttpResponse.success (some parsed) =>
    ((parsed.get "usage").get "total_tokens").as_i64
  | _ => none

/-- The opening delimiter of a tool-use directive, as hard-coded in
`get_tool_answer`'s strip step (`format!("<ToolUse>{}</ToolUse>", call)`). -/
def openTag : List Char := "<ToolUse>".toList

/-- The closing delimiter of a tool-use directive. -/
def closeTag : List Char := "</ToolUse>".toList

/-- Scan for the first occurrence of `closeTag`: on success, the text
before it and the text after it. -/
def findClose : List Char → Option (List Char × List Char)
  | [] => none
  | ch :: t =>
    if closeTag.isPrefixOf (ch :: t) then some ([], (ch :: t).drop closeTag.length)
    else
      match findClose t with
      | some (c, r) => some (ch :: c, r)
      | none => none

/-- The fueled worker behind `scanPieces`; the fuel only serves
termination and `s.length` of it is always enough, because every
recursive call shortens the string. -/
def scanPiecesF : Nat → List Char → List (List Char × List Char) × List Char
  | 0, s => ([], s)
  | fuel + 1, s =>
    if openTag.isPrefixOf s then
      match findClose (s.drop openTag.length) with
      | some (c, r) =>
        let (ps, t) := scanPiecesF fuel r
        (([], c) :: ps, t)
      | none => ([], s)
    else
      match s with
      | [] => ([], [])
      | ch :: rest =>
        let (ps, t) := scanPiecesF fuel rest
        match ps with
        | [] => ([], ch :: t)
        | (a, c) :: ps' => ((ch :: a, c) :: ps', t)

/-- Modelled from the spec: `crate::schema::tool_schema::extract_tool_uses`
is not under `src/`; §6.4 specifies directives as substrings delimited by
the fixed `<ToolUse>`/`</ToolUse>` tag pair, matched literally in order of
appearance, with malformed or unbalanced tags simply not matched.  The scan
finds the leftmost open tag, then the first close tag after it, records the
segment before the directive and the enclosed call text, and continues
after the close tag; the text after the last matched directive (including
any unmatched trailing tags) is kept as the trailing segment.  The result
is the list of (leading segment, call text) pieces together with that
trailing segment. -/
def scanPieces (s : List Char) : List (List Char × List Char) × List Char :=
  scanPiecesF s.length s

/-- The extracted call texts, in order of appearance. -/
def extract_tool_uses (s : List Char) : List (List Char) :=
  (scanPieces s).1.map Prod.snd

/-- The concatenation of the non-directive segments of a scan: what §4.5
step 3 describes as the answer with every matched directive substring
(delimiters included) removed and the surrounding text preserved. -/
def segsJoin (ps : List (List Char × List Char)) (tl : List Char) : List Char :=
  match ps with
  | [] => tl
  | (a, _) :: rest => a ++ segsJoin rest tl

/-- The spec's description of the strip step (§4.5 step 3 of the spec),
stated independently of the implementation: remove every matched directive
substring from the answer, keeping the surrounding text in order. -/
def strip_spec (s : List Char) : List Char :=
  segsJoin (scanPieces s).1 (scanPieces s).2

/-- Reassemble a scan: the inverse direction of `scanPieces`. -/
def assemble (ps : List (List Char × List Char)) (tl : List Char) : List Char :=
  match ps with
  | [] => tl
  | (a, c) :: rest => a ++ openTag ++ c ++ closeTag ++ assemble rest tl

/-- The fueled worker behind `removeAll`; `s.length` of fuel is always
enough, because every recursive call shortens the string. -/
def removeAllF : Nat → List Char → List Char → List Char
  | 0, _, s => s
  | fuel + 1, pat, s =>
    match s with
    | [] => []
    | ch :: t =>
      if pat ≠ [] ∧ pat.isPrefixOf s then removeAllF fuel pat (s.drop pat.length)
      else ch :: removeAllF fuel pat t

/-- Function `str::replace(pattern, "")` from the Rust standard library, at the
interface boundary: remove every non-overlapping occurrence of `pat`,
scanning left to right.  (The embedded code only ever replaces by the
empty string, and its patterns are never empty.) -/
def removeAll (pat s : List Char) : List Char :=
  removeAllF s.length pat s

/-- The opening-brace character, kept symbolic. -/
def lbrace : Char := Char.ofNat 123

/-- The closing-brace character, kept symbolic. -/
def rbrace : Char := Char.ofNat 125

/-- The apostrophe character, kept symbolic. -/
def apos : Char := Char.ofNat 39

/-- JSON insignificant whitespace. -/
def isJsonWs (ch : Char) : Bool :=
  ch = ' ' || ch = '\n' || ch = '\t' || ch = '\r'

/-- A decimal digit as a number. -/
def digitVal (ch : Char) : Option Nat :=
  if '0' ≤ ch ∧ ch ≤ '9' then some (ch.toNat - '0'.toNat) else none

/-- A hexadecimal digit as a number. -/
def hexVal (ch : Char) : Option Nat :=
  if '0' ≤ ch ∧ ch ≤ '9' then some (ch.toNat - '0'.toNat)
  else if 'a' ≤ ch ∧ ch ≤ 'f' then some (ch.toNat - 'a'.toNat + 10)
  else if 'A' ≤ ch ∧ ch ≤ 'F' then some (ch.toNat - 'A'.toNat + 10)
  else none

/-- The JSON escape characters that map to a single fixed character. -/
def escChar (e : Char) : Option Char :=
  if e = '"' then some '"'
  else if e = '\\' then some '\\'
  else if e = '/' then some '/'
  else if e = 'n' then some '\n'
  else if e = 't' then some '\t'
  else if e = 'r' then some '\r'
  else if e = 'b' then some (Char.ofNat 8)
  else if e = 'f' then some (Char.ofNat 12)
  else none

/-- The body of a JSON string literal, after the opening quote: the decoded
characters and the rest of the input after the closing quote. -/
def parseStrBody : List Char → Option (List Char × List Char)
  | [] => none
  | ch :: t =>
    if ch = '"' then some ([], t)
    else if ch = '\\' then
      match t with
      | [] => none
      | 'u' :: h1 :: h2 :: h3 :: h4 :: t3 =>
        match hexVal h1, hexVal h2, hexVal h3, hexVal h4 with
        | some a, some b, some c, some d =>
          match parseStrBody t3 with
          | some (cs, r) =>
            some (Char.ofNat (((a * 16 + b) * 16 + c) * 16 + d) :: cs, r)
          | none => none
        | _, _, _, _ => none
      | 'u' :: _ => none
      | e :: t2 =>
        match escChar e with
        | some c =>
          match parseStrBody t2 with
          | some (cs, r) => some (c :: cs, r)
          | none => none
        | none => none
    else
      match parseStrBody t with
      | some (cs, r) => some (ch :: cs, r)
      | none => none

/-- The digits of a JSON integer. -/
def parseDigits : List Char → Nat → Option (Nat × List Char)
  | [], acc => some (acc, [])
  | ch :: t, acc =>
    match digitVal ch with
    | some d => parseDigits t (acc * 10 + d)
    | none => some (acc, ch :: t)

/-- The three states of the recursive-descent JSON reader: reading one
value, reading the elements after `[`, or reading the fields after the
opening brace (`first` marks that no element/field has been read yet). -/
inductive PMode where
  | pval : PMode
  | parr (first : Bool) : PMode
  | pobj (first : Bool) : PMode

/-- The recursive-descent JSON reader, one fuel unit per descent step (the
fuel only serves termination; `Json.parse` supplies enough for any input
it accepts or rejects meaningfully).  In `pval` mode it reads one JSON
value; in `parr`/`pobj` mode it reads the remainder of an array or
object. -/
def parseRun : Nat → PMode → List Char → Option (Json × List Char)
  | 0, _, _ => none
  | fuel + 1, PMode.pval, s =>
    match (s.dropWhile isJsonWs) with
    | [] => none
    | ch :: t =>
      if ch = lbrace then parseRun fuel (PMode.pobj true) t
      else if ch = '[' then parseRun fuel (PMode.parr true) t
      else if ch = '"' then
        match parseStrBody t with
        | some (cs, r) => some (Json.str (String.mk cs), r)
        | none => none
      else if ch = 't' then
        if ['r', 'u', 'e'].isPrefixOf t then some (Json.bool true, t.drop 3) else none
      else if ch = 'f' then
        if ['a', 'l', 's', 'e'].isPrefixOf t then some (Json.bool false, t.drop 4) else none
      else if ch = 'n' then
        if ['u', 'l', 'l'].isPrefixOf t then some (Json.null, t.drop 3) else none
      else if ch = '-' then
        match t with
        | d :: t2 =>
          match digitVal d with
          | some v =>
            match parseDigits t2 v with
            | some (n, r) => some (Json.num (-(n : Int)), r)
            | none => none
          | none => none
        | [] => none
      else
        match digitVal ch with
        | some v =>
          match parseDigits t v with
          | some (n, r) => some (Json.num (n : Int), r)
          | none => none
        | none => none
  | fuel + 1, PMode.parr first, s =>
    match (s.dropWhile isJsonWs) with
    | [] => none
    | ch :: t =>
      if ch = ']' ∧ first then some (Json.arr [], t)
      else
        match parseRun fuel PMode.pval (ch :: t) with
        | some (v, r) =>
          match (r.dropWhile isJsonWs) with
          | ch2 :: t2 =>
            if ch2 = ']' then some (Json.arr [v], t2)
            else if ch2 = ',' then
              match parseRun fuel (PMode.parr false) t2 with
              | some (Json.arr vs, r2) => some (Json.arr (v :: vs), r2)
              | _ => none
            else none
          | [] => none
        | none => none
  | fuel + 1, PMode.pobj first, s =>
    match (s.dropWhile isJsonWs) with
    | [] => none
    | ch :: t =>
      if ch = rbrace ∧ first then some (Json.obj [], t)
      else if ch = '"' then
        match parseStrBody t with
        | some (key, r) =>
          match (r.dropWhile isJsonWs) with
          | ch2 :: t2 =>
            if ch2 = ':' then
              match parseRun fuel PMode.pval t2 with
              | some (v, r2) =>
                match (r2.dropWhile isJsonWs) with
                | ch3 :: t3 =>
                  if ch3 = rbrace then some (Json.obj [(String.mk key, v)], t3)
                  else if ch3 = ',' then
                    match parseRun fuel (PMode.pobj false) t3 with
                    | some (Json.obj fs, r3) =>
                      some (Json.obj ((String.mk key, v) :: fs), r3)
                    | _ => none
                  else none
                | [] => none
              | none => none
            else none
          | [] => none
        | none => none
      else none

/-- Parser `serde_json::from_str` to `serde_json::Value`, at the interface boundary
of the external `serde_json` crate: parse the whole string as one JSON
value, allowing surrounding whitespace and failing on trailing input.
(Numbers are modelled as integers: no claim depends on non-integer JSON
numbers.) -/
def Json.parse (s : String) : Option Json :=
  match parseRun (2 * s.toList.length + 2) PMode.pval s.toList with
  | some (v, r) => if (r.dropWhile isJsonWs) = [] then some v else none
  | none => none

/-- Serializer `serde_json::to_string_pretty`, at the interface boundary: a total
serialization of a `Json` value.  (The exact layout of the pretty-printer
is irrelevant to every claim; string escaping is elided.) -/
def Json.pretty : Json → String
  | Json.null => "null"
  | Json.bool b => if b then "true" else "false"
  | Json.num n => toString n
  | Json.str s => "\"" ++ s ++ "\""
  | Json.arr es =>
    "[" ++ String.intercalate ", " (es.attach.map (fun x => Json.pretty x.1)) ++ "]"
  | Json.obj fs =>
    String.mk [lbrace] ++
      String.intercalate ", "
        (fs.attach.map (fun x => "\"" ++ x.1.1 ++ "\": " ++ Json.pretty x.1.2)) ++
      String.mk [rbrace]
termination_by j => sizeOf j
decreasing_by
  · have := List.sizeOf_lt_of_mem x.2
    simp at *
    omega
  · have h1 := List.sizeOf_lt_of_mem x.2
    obtain ⟨⟨k, v⟩, hx⟩ := x
    simp at *
    omega

/-- A function name wrapped in apostrophe characters, as the source's error formatting produces. -/
def quoted (name : String) : String :=
  String.mk [apos] ++ name ++ String.mk [apos]

/-- Enum `ToolCallError` from `chat_single.rs`. -/
inductive ToolCallError where
  | ParseFunctionCall : ToolCallError
  | FunctionNotFound (name : String) : ToolCallError
  | FunctionExecution (name : String) : ToolCallError
  | SerializeResult : ToolCallError
  | DeserializeArguments (msg : String) : ToolCallError
  | GetJson (msg : String) : ToolCallError
  | ExtractFunctionCall (msg : String) : ToolCallError
  | MissingField (field : String) : ToolCallError
deriving DecidableEq, Repr

/-- The `thiserror`-derived display text of a `ToolCallError`.  (The
`error_stack::Report` wrapper additionally prints attachments; the
embedded placeholder strings keep only the error's own display text, on
which no claim depends beyond it being an in-band error string.) -/
def ToolCallError.display : ToolCallError → String
  | ToolCallError.ParseFunctionCall => "Failed to parse function call"
  | ToolCallError.FunctionNotFound n => "Function " ++ quoted n ++ " not found"
  | ToolCallError.FunctionExecution n => "Failed to execute function " ++ quoted n
  | ToolCallError.SerializeResult => "Failed to serialize function result"
  | ToolCallError.DeserializeArguments m => "Failed to deserialize arguments: " ++ m
  | ToolCallError.GetJson m => "Failed to get json: " ++ m
  | ToolCallError.ExtractFunctionCall m => "Failed to extract function call from: " ++ m
  | ToolCallError.MissingField f => "Missing field: " ++ f

/-- Modelled from the spec: `crate::schema::tool_schema::get_tool_registry`
is not under `src/`; §6.3 specifies the tool registry as a process-wide,
read-only mapping from tool name to a function
`(JSON arguments) -> Result<JSON, error>`, the error being rendered into a
message.  It is modelled as an association list. -/
def ToolRegistry := List (String × (Json → Except String Json))

/-- Registry lookup by function name. -/
def lookupTool (registry : ToolRegistry) (name : String) :
    Option (Json → Except String Json) :=
  match List.find? (fun p => p.1 == name) registry with
  | some p => some p.2
  | none => none

/-- Method `SingleChat::process_tool_call` from `chat_single.rs` (lines 290-350),
as a function of the resolved function-call object and the registry.  The
first step — `ChatTool::get_function(&text_call, ..)`, a secondary model
invocation over the network — is an external collaborator, so its outcome
is the `resolution` input: a failure there is converted to
`ParseFunctionCall`.  After that the code reads `function_call["name"]`
and `function_call["arguments"]` as strings (failing with `MissingField`),
deserializes the arguments string as JSON (failing with
`DeserializeArguments` carrying serde's message, which the model keeps
abstract), and dispatches on the registry: an executed call's value is
serialized as the `Ok` result, while execution failure and
function-not-found are *returned as `Ok` strings*, not errors. -/
def process_tool_call (resolution : Except Unit Json) (registry : ToolRegistry) :
    Except ToolCallError String :=
  match resolution with
  | Except.error _ => Except.error ToolCallError.ParseFunctionCall
  | Except.ok function_call =>
    match (function_call.get "name").as_str with
    | none => Except.error (ToolCallError.MissingField "name")
    | some function_name =>
      match (function_call.get "arguments").as_str with
      | none => Except.error (ToolCallError.MissingField "arguments")
      | some arg_str =>
        match Json.parse arg_str with
        | none => Except.error (ToolCallError.DeserializeArguments "invalid JSON")
        | some arg_json =>
          match lookupTool registry function_name with
          | some tool_fn =>
            match tool_fn arg_json with
            | Except.ok result => Except.ok (Json.pretty result)
            | Except.error e =>
              Except.ok ("Calling function " ++ quoted function_name ++ " failed: " ++ e)
          | none =>
            Except.ok ("Cannot find function named " ++ quoted function_name)

/-- What the `task.await` in `get_tool_answer`'s join loop observes for one
spawned task: either the task ran `process_tool_call` to completion with
the given external resolution outcome, or it failed at the join level
(`tokio::task::JoinError`, carried here as its debug text). -/
inductive TaskOutcome where
  | joined (resolution : Except Unit Json) : TaskOutcome
  | joinFailure (dbg : String) : TaskOutcome

/-- One iteration of `get_tool_answer`'s join loop (`chat_single.rs` lines
421-446) for the task at launch position `i`: a successful
`process_tool_call` result is pushed as-is, a `process_tool_call` error
becomes the `{"error": "Tool call failed with error: .."}` placeholder,
and a join-level failure becomes the
`{"error": "Task execution failed: .."}` placeholder. -/
def renderJoin (registry : ToolRegistry) (i : Nat) (o : TaskOutcome) : String :=
  match o with
  | TaskOutcome.joined res =>
    match process_tool_call res registry with
    | Except.ok s => s
    | Except.error err =>
      String.mk [lbrace] ++ "\"error\": \"Tool call failed with error: " ++
        err.display ++ "\"" ++ String.mk [rbrace]
  | TaskOutcome.joinFailure dbg =>
    String.mk [lbrace] ++ "\"error\": \"Task execution failed: Task join error for call #" ++
      toString i ++ ": " ++ dbg ++ "\"" ++ String.mk [rbrace]

/-- Method `SingleChat::get_tool_answer` from `chat_single.rs` (lines 361-455),
from the point where the model's `answer` text is in hand (the initial
exchange is an external collaborator).  `env i` is the outcome of the
task spawned for the `i`-th extracted call text, in extraction order —
the spawned tasks only meet the session again at the join loop, which
awaits them in launch order, so their completion order has no further
observable effect.  Extraction finding nothing returns the answer and an
empty result vector unchanged; otherwise the clean answer folds
`replace("<ToolUse>{call}</ToolUse>", "")` over the extracted calls, and
the results collect one join outcome per launch position. -/
def get_tool_answer (answer : List Char) (registry : ToolRegistry)
    (env : Nat → TaskOutcome) : List Char × List String :=
  let text_calls := extract_tool_uses answer
  match text_calls with
  | [] => (answer, [])
  | _ =>
    let clean_answer :=
      text_calls.foldl (fun acc c => removeAll (openTag ++ c ++ closeTag) acc) answer
    (clean_answer, (List.range text_calls.length).map (fun i => renderJoin registry i (env i)))

/-- The extraction step of `ChatTool::get_function` from `chat_tool.rs`
(line 68): `response["choices"][0]["message"]["tool_calls"][0]["function"]`,
with no shape validation. -/
def get_function_extract (response : Json) : Json :=
  (((((response.get "choices").idx 0).get "message").get "tool_calls").idx 0).get "function"

/-- Method `ChatTool::get_function` from `chat_tool.rs` (lines 49-71), as a
function of the transport outcome of its model invocation: a transport
failure becomes `GetFunctionError`; a response is mined by
`get_function_extract` and returned as `Ok` whatever its shape. -/
def get_function (transport : Except Unit Json) : Except ChatError Json :=
  match transport with
  | Except.error _ => Except.error ChatError.GetFunctionError
  | Except.ok response => Except.ok (get_function_extract response)

/-- The per-message rendering rule exactly as §4.2 of the spec words it, to
be compared against the code's `Message::to_api_format`. -/
def to_api_format_spec (m : Message) (current_speaker : Role) : ApiMessage :=
  match m.role with
  | Role.system => ApiMessage.mk "system" m.content
  | Role.user => ApiMessage.mk "user" m.content
  | Role.assistant =>
    if current_speaker = Role.assistant then ApiMessage.mk "assistant" m.content
    else ApiMessage.mk "user" ("Assistant said: " ++ m.content)
  | Role.character name =>
    if m.role = current_speaker then ApiMessage.mk "assistant" m.content
    else ApiMessage.mk "user" (name ++ " said: " ++ m.content)

/-- The full delimited text of a directive with call text `c`:
`<ToolUse>{c}</ToolUse>`, the pattern `get_tool_answer` strips. -/
def dirPat (c : List Char) : List Char :=
  openTag ++ c ++ closeTag

/-- Variant of `assemble` with a subset of the directives removed: the pieces whose
call text is in `done` contribute only their leading segment.  This is the
shape of the intermediate strings of `get_tool_answer`'s strip fold. -/
def residual (ps : List (List Char × List Char)) (tl : List Char)
    (done : List (List Char)) : List Char :=
  match ps with
  | [] => tl
  | (a, c) :: rest =>
    if c ∈ done then a ++ residual rest tl done
    else a ++ openTag ++ c ++ closeTag ++ residual rest tl done

/-- A Rust `i32` value: the range every `usage` counter value and every
`as i32` cast result lies in. -/
def inI32 (x : Int) : Prop :=
  -(2 ^ 31) ≤ x ∧ x < 2 ^ 31

/-!  ## Theorems  -/

/-- C1.  `build_messages` hands `m.to_api_format` the message's own role
as `current_speaker`, so a stored `Character("Bob")` message is rendered
as `{"assistant", "hello"}` no matter which identity the session is
generating for — the full pipeline never produces the
`{"user", "Bob said: hello"}` recasting the spec describes for a history
`[Character("Bob"):"hello"]` rendered for `Character("Alice")`.  This
theorem evaluates the pipeline at that history. -/
theorem C1_pipeline_renders_other_character_as_assistant :
    BaseChat.build_messages
        (BaseChat.mk "You are Alice" [Message.mk (Role.character "Bob") "hello"] 0) =
      [ApiMessage.mk "system" "You are Alice", ApiMessage.mk "assistant" "hello"] := by
  decide

/-- C2.  `Message::to_api_format` agrees with the spec's §4.2 case
analysis on every message and every current speaker — `System` and `User`
pass through, `Assistant` and `Character(name)` render as `"assistant"`
with unchanged content exactly when they are the current speaker and are
otherwise recast as `"user"` with the `"{who} said: "` prefix — and it is
total, so no input is rejected. -/
theorem C2_to_api_format_matches_spec_cases :
    ∀ (m : Message) (current_speaker : Role),
      m.to_api_format current_speaker = to_api_format_spec m current_speaker := by
  intro m s
  cases hm : m.role with
  | system => simp [Message.to_api_format, to_api_format_spec, hm]
  | user => simp [Message.to_api_format, to_api_format_spec, hm]
  | assistant =>
    by_cases hs : s = Role.assistant <;>
      simp [Message.to_api_format, to_api_format_spec, hm, hs] <;>
      simp [eq_comm] at hs ⊢ <;> simp [hs]
  | character name =>
    by_cases hs : m.role = s <;>
      simp [Message.to_api_format, to_api_format_spec, hm] <;>
      simp [hm] at hs <;> simp [hs]

/-- C3.  For every session state, the rendered array `build_messages`
produces starts with exactly one synthetic system message carrying the
character prompt, and everything after it is exactly the rendered stored
messages (one per stored message) — the synthetic head is prepended, not
drawn from the store. -/
theorem C3_leading_system_message :
    ∀ chat : BaseChat,
      chat.build_messages =
          ApiMessage.mk "system" chat.character_prompt ::
            chat.messages.map (fun m => m.to_api_format m.role) ∧
        chat.build_messages.head? = some (ApiMessage.mk "system" chat.character_prompt) ∧
        chat.build_messages.length = chat.messages.length + 1 := by
  intro chat
  refine ⟨rfl, rfl, ?_⟩
  simp [BaseChat.build_messages]

/-- C9.  When extraction finds no directive in the answer, `get_tool_answer`
returns the answer unchanged together with an empty result vector: the
strip step is the identity on directive-free text. -/
theorem C9_no_directives_identity :
    ∀ (answer : List Char) (registry : ToolRegistry) (env : Nat → TaskOutcome),
      extract_tool_uses answer = [] →
      get_tool_answer answer registry env = (answer, []) := by
  intro answer registry env h
  simp [get_tool_answer, h]

/-- C9 witness: a concrete directive-free answer. -/
theorem C9_no_directives_identity_witness :
    extract_tool_uses "hello there".toList = [] ∧
      get_tool_answer "hello there".toList [] (fun _ => TaskOutcome.joinFailure "e") =
        ("hello there".toList, []) :=
  ⟨by decide, C9_no_directives_identity "hello there".toList [] _ (by decide)⟩

/-- C10.  `ChatTool::get_function` mines
`response["choices"][0]["message"]["tool_calls"][0]["function"]` with no
shape validation: whenever the body lacks that path — `tool_calls`
absent, an empty array, or a first element without a `function` field —
the extraction yields JSON `null` and `get_function` still returns `Ok`,
so the malformed resolution only surfaces later in `process_tool_call`
as `MissingField("name")`. -/
theorem C10_get_function_no_validation :
    ∀ (response : Json) (registry : ToolRegistry),
      ((((response.get "choices").idx 0).get "message").get "tool_calls" = Json.null ∨
        (((response.get "choices").idx 0).get "message").get "tool_calls" = Json.arr [] ∨
        ∃ e es,
          (((response.get "choices").idx 0).get "message").get "tool_calls" =
              Json.arr (e :: es) ∧
            e.get "function" = Json.null) →
      get_function (Except.ok response) = Except.ok Json.null ∧
        process_tool_call (Except.ok (get_function_extract response)) registry =
          Except.error (ToolCallError.MissingField "name") := by
  intro response registry h
  have hnull : get_function_extract response = Json.null := by
    unfold get_function_extract
    rcases h with h | h | ⟨e, es, h, hf⟩
    · rw [h]; rfl
    · rw [h]; rfl
    · rw [h]
      simpa [Json.idx] using hf
  constructor
  · simp [get_function, hnull]
  · rw [hnull]
    rfl

/-- C10 witness: the empty-object response lacks the whole path. -/
theorem C10_get_function_no_validation_witness :
    get_function (Except.ok (Json.obj [])) = Except.ok Json.null ∧
      process_tool_call (Except.ok (get_function_extract (Json.obj []))) [] =
        Except.error (ToolCallError.MissingField "name") :=
  C10_get_function_no_validation (Json.obj []) [] (Or.inl rfl)

/-- C7 counterexample: the claim requires the `arguments` string to
deserialize to a JSON *object*, but `process_tool_call` deserializes it to
any `serde_json::Value` — the non-object arguments string `"5"` parses as
the JSON number 5 and the call proceeds to dispatch (here: an in-band
not-found result) instead of failing with `DeserializeArguments`. -/
theorem C7_nonobject_arguments_accepted :
    (∀ fs, Json.parse "5" ≠ some (Json.obj fs)) ∧
      process_tool_call
          (Except.ok (Json.obj [("name", Json.str "f"), ("arguments", Json.str "5")])) [] =
        Except.ok ("Cannot find function named " ++ quoted "f") := by
  refine ⟨?_, by rfl⟩
  intro fs h
  have h5 : Json.parse "5" = some (Json.num 5) := rfl
  rw [h5] at h
  simp at h

/-- C7 as amended: `process_tool_call` fails with `MissingField("name")`
when the resolved object's `name` field is absent or not a string, with
`MissingField("arguments")` when `name` is a string but `arguments` is
absent or not a string, and with `DeserializeArguments` when the
`arguments` string is not valid JSON; any `arguments` string that parses
as a JSON *value* — object or not — passes validation, after which the
call always produces an `Ok` result. -/
theorem C7_field_validation :
    ∀ (fc : Json) (registry : ToolRegistry),
      ((fc.get "name").as_str = none →
        process_tool_call (Except.ok fc) registry =
          Except.error (ToolCallError.MissingField "name")) ∧
      (∀ name, (fc.get "name").as_str = some name →
        (fc.get "arguments").as_str = none →
        process_tool_call (Except.ok fc) registry =
          Except.error (ToolCallError.MissingField "arguments")) ∧
      (∀ name args, (fc.get "name").as_str = some name →
        (fc.get "arguments").as_str = some args →
        Json.parse args = none →
        process_tool_call (Except.ok fc) registry =
          Except.error (ToolCallError.DeserializeArguments "invalid JSON")) ∧
      (∀ name args arg, (fc.get "name").as_str = some name →
        (fc.get "arguments").as_str = some args →
        Json.parse args = some arg →
        ∃ s, process_tool_call (Except.ok fc) registry = Except.ok s) := by
  intro fc registry
  refine ⟨?_, ?_, ?_, ?_⟩
  · intro h
    simp [process_tool_call, h]
  · intro name hn h
    simp [process_tool_call, hn, h]
  · intro name args hn ha hp
    simp [process_tool_call, hn, ha, hp]
  · intro name args arg hn ha hp
    simp only [process_tool_call, hn, ha, hp]
    split
    · split
      · exact ⟨_, rfl⟩
      · exact ⟨_, rfl⟩
    · exact ⟨_, rfl⟩

/-- C7 witness: a resolution with a missing `name` field, one with a
string `name` but missing `arguments`, one with unparseable arguments,
and one with valid non-empty-object arguments. -/
theorem C7_field_validation_witness :
    process_tool_call (Except.ok (Json.obj [])) [] =
        Except.error (ToolCallError.MissingField "name") ∧
      process_tool_call (Except.ok (Json.obj [("name", Json.str "f")])) [] =
        Except.error (ToolCallError.MissingField "arguments") ∧
      process_tool_call
          (Except.ok (Json.obj [("name", Json.str "f"), ("arguments", Json.str "oops")])) [] =
        Except.error (ToolCallError.DeserializeArguments "invalid JSON") ∧
      ∃ s,
        process_tool_call
            (Except.ok (Json.obj [("name", Json.str "f"), ("arguments", Json.str "null")])) [] =
          Except.ok s :=
  ⟨(C7_field_validation (Json.obj []) []).1 rfl,
    (C7_field_validation (Json.obj [("name", Json.str "f")]) []).2.1 "f" rfl rfl,
    (C7_field_validation (Json.obj [("name", Json.str "f"), ("arguments", Json.str "oops")])
        []).2.2.1 "f" "oops" rfl rfl rfl,
    (C7_field_validation (Json.obj [("name", Json.str "f"), ("arguments", Json.str "null")])
        []).2.2.2 "f" "null" Json.null rfl rfl rfl⟩

/-- Wrapping is the identity inside the `i32` range. -/
theorem wrap32_eq_self {x : Int} (h1 : -(2 ^ 31) ≤ x) (h2 : x < 2 ^ 31) :
    wrap32 x = x := by
  unfold wrap32
  have h0 : (0 : Int) ≤ x + 2 ^ 31 := by omega
  have hlt : x + 2 ^ 31 < 2 ^ 32 := by omega
  rw [Int.emod_eq_of_lt h0 hlt]
  omega

/-- An exchange that reports no token count leaves the session state
untouched. -/
theorem send_tokens_none {chat : BaseChat} {resp : HttpResponse}
    (h : resp.tokensOf = none) : (chat.send_request resp).1 = chat := by
  cases resp with
  | success body =>
    cases body with
    | none => rfl
    | some parsed =>
      simp [HttpResponse.tokensOf] at h
      simp [BaseChat.send_request, h]
  | statusCode code => rfl
  | transportFailure => rfl

/-- An exchange that reports token count `t` adds its `i32` cast to the
usage counter, with `i32` wrapping. -/
theorem send_tokens_some {chat : BaseChat} {resp : HttpResponse} {t : Int}
    (h : resp.tokensOf = some t) :
    (chat.send_request resp).1 = { chat with usage := wrap32 (chat.usage + wrap32 t) } := by
  cases resp with
  | success body =>
    cases body with
    | none => simp [HttpResponse.tokensOf] at h
    | some parsed =>
      simp [HttpResponse.tokensOf] at h
      simp [BaseChat.send_request, h]
  | statusCode code => simp [HttpResponse.tokensOf] at h
  | transportFailure => simp [HttpResponse.tokensOf] at h

/-- C8 counterexample: a completed exchange whose response reports
`total_tokens = -5` *decrements* the usage counter (100 to 95), so the
counter is not "never decremented" as stated: the code adds whatever
`as_i64` yields, negative values included. -/
theorem C8_negative_tokens_decrement :
    ((BaseChat.mk "p" [] 100).send_request
          (HttpResponse.success (some
            (Json.obj [("usage", Json.obj [("total_tokens", Json.num (-5))])])))).1.usage <
        (BaseChat.mk "p" [] 100).usage ∧
      ∃ out,
        ((BaseChat.mk "p" [] 100).send_request
            (HttpResponse.success (some
              (Json.obj [("usage", Json.obj [("total_tokens", Json.num (-5))])])))).2 =
          Except.ok out :=
  ⟨by decide, ⟨Json.obj [("usage", Json.obj [("total_tokens", Json.num (-5))])], rfl⟩⟩

/-- C8 as amended: `send_request` fails with `MissingUsageData` — leaving
the whole session state unchanged — exactly when the parsed body's
`usage.total_tokens` is absent or non-numeric; every failing exchange
leaves the state unchanged; a completed exchange adds the reported token
count to the usage counter (under `i32` wrapping); and provided the
reported counts are non-negative and the running total stays inside the
`i32` range — true of real token metering — the counter never decreases
and after `n` successful exchanges equals the initial value plus the sum
of the `n` reported counts. -/
theorem C8_usage_accounting :
    (∀ (chat : BaseChat) (parsed : Json),
      ((parsed.get "usage").get "total_tokens").as_i64 = none →
      chat.send_request (HttpResponse.success (some parsed)) =
        (chat, Except.error ChatError.MissingUsageData)) ∧
    (∀ (chat : BaseChat) (resp : HttpResponse),
      resp.tokensOf = none → (chat.send_request resp).1 = chat) ∧
    (∀ (chat : BaseChat) (resp : HttpResponse) (t : Int),
      resp.tokensOf = some t →
      (chat.send_request resp).1 =
          { chat with usage := wrap32 (chat.usage + wrap32 t) } ∧
        ∃ parsed, resp = HttpResponse.success (some parsed) ∧
          (chat.send_request resp).2 = Except.ok parsed) ∧
    (∀ (chat : BaseChat) (resp : HttpResponse),
      0 ≤ chat.usage →
      (∀ t, resp.tokensOf = some t → 0 ≤ t ∧ chat.usage + t < 2 ^ 31) →
      chat.usage ≤ (chat.send_request resp).1.usage) ∧
    (∀ (chat : BaseChat) (resps : List HttpResponse),
      0 ≤ chat.usage →
      (∀ r ∈ resps, ∀ t, r.tokensOf = some t → 0 ≤ t) →
      chat.usage + (resps.filterMap HttpResponse.tokensOf).sum < 2 ^ 31 →
      (chat.exchanges resps).usage =
        chat.usage + (resps.filterMap HttpResponse.tokensOf).sum) := by
  refine ⟨?_, fun chat resp h => send_tokens_none h, ?_, ?_, ?_⟩
  · intro chat parsed h
    simp [BaseChat.send_request, h]
  · intro chat resp t h
    refine ⟨send_tokens_some h, ?_⟩
    cases resp with
    | success body =>
      cases body with
      | none => simp [HttpResponse.tokensOf] at h
      | some parsed =>
        simp [HttpResponse.tokensOf] at h
        exact ⟨parsed, rfl, by simp [BaseChat.send_request, h]⟩
    | statusCode code => simp [HttpResponse.tokensOf] at h
    | transportFailure => simp [HttpResponse.tokensOf] at h
  · intro chat resp h0 hb
    cases ht : resp.tokensOf with
    | none => rw [send_tokens_none ht]
    | some t =>
      rw [send_tokens_some ht]
      obtain ⟨htn, htb⟩ := hb t ht
      have hw1 : wrap32 t = t := wrap32_eq_self (by omega) (by omega)
      have hw2 : wrap32 (chat.usage + t) = chat.usage + t :=
        wrap32_eq_self (by omega) (by omega)
      simp [hw1, hw2]
      omega
  · intro chat resps
    induction resps generalizing chat with
    | nil =>
      intro _ _ _
      simp [BaseChat.exchanges]
    | cons r rest ih =>
      intro h0 hnn hsum
      have hstep : chat.exchanges (r :: rest) = ((chat.send_request r).1).exchanges rest := by
        simp [BaseChat.exchanges]
      cases ht : r.tokensOf with
      | none =>
        rw [hstep, send_tokens_none ht]
        have hfm : (r :: rest).filterMap HttpResponse.tokensOf =
            rest.filterMap HttpResponse.tokensOf := by
          simp [List.filterMap_cons, ht]
        rw [hfm] at hsum ⊢
        exact ih chat h0 (fun x hx => hnn x (List.mem_cons_of_mem r hx)) hsum
      | some t =>
        have hfm : (r :: rest).filterMap HttpResponse.tokensOf =
            t :: rest.filterMap HttpResponse.tokensOf := by
          simp [List.filterMap_cons, ht]
        rw [hfm] at hsum
        have htpos : 0 ≤ t := hnn r (List.mem_cons_self r rest) t ht
        have hrest : 0 ≤ (rest.filterMap HttpResponse.tokensOf).sum := by
          refine List.sum_nonneg ?_
          intro x hx
          rw [List.mem_filterMap] at hx
          obtain ⟨a, ha, hax⟩ := hx
          exact hnn a (List.mem_cons_of_mem r ha) x hax
        simp only [List.sum_cons] at hsum
        have hw1 : wrap32 t = t := wrap32_eq_self (by omega) (by omega)
        have hw2 : wrap32 (chat.usage + t) = chat.usage + t :=
          wrap32_eq_self (by omega) (by omega)
        rw [hstep, send_tokens_some ht, hw1, hw2]
        have := ih { chat with usage := chat.usage + t } (by simp; omega)
          (fun x hx => hnn x (List.mem_cons_of_mem r hx)) (by simp; omega)
        rw [this]
        rw [hfm]
        simp
        omega

/-- C8 witness: two successful exchanges (7 then 5 tokens) with a failing
exchange in between leave the counter at the sum 12. -/
theorem C8_usage_accounting_witness :
    ((BaseChat.mk "p" [] 0).exchanges
        [HttpResponse.success (some (Json.obj [("usage", Json.obj [("total_tokens", Json.num 7)])])),
          HttpResponse.statusCode 500,
          HttpResponse.success (some (Json.obj [("usage", Json.obj [("total_tokens", Json.num 5)])]))]).usage =
      12 := by
  have h := C8_usage_accounting.2.2.2.2 (BaseChat.mk "p" [] 0)
    [HttpResponse.success (some (Json.obj [("usage", Json.obj [("total_tokens", Json.num 7)])])),
      HttpResponse.statusCode 500,
      HttpResponse.success (some (Json.obj [("usage", Json.obj [("total_tokens", Json.num 5)])]))]
    (by decide)
    (by
      intro r hr t ht
      simp only [List.mem_cons, List.not_mem_nil, or_false] at hr
      rcases hr with h1 | h1 | h1 <;> subst h1 <;>
        simp [HttpResponse.tokensOf, Json.get, Json.as_i64] at ht <;> omega)
    (by decide)
  rw [h]
  decide

/-- When extraction finds at least one call, the result vector of
`get_tool_answer` is one join outcome per launch position. -/
theorem get_tool_answer_results {answer : List Char} {registry : ToolRegistry}
    {env : Nat → TaskOutcome} (h : extract_tool_uses answer ≠ []) :
    (get_tool_answer answer registry env).2 =
      (List.range (extract_tool_uses answer).length).map
        (fun i => renderJoin registry i (env i)) := by
  unfold get_tool_answer
  cases hc : extract_tool_uses answer with
  | nil => exact absurd hc h
  | cons c cs => simp

/-- C4.  For every answer, `get_tool_answer` returns exactly one result
per extracted directive: the result vector's length equals the number of
extracted call texts, the entry at position `i` is determined solely by
the join outcome of the task launched for the `i`-th directive (so
completion order of the concurrent tasks cannot reorder it), and a task
that fails at the join level contributes the structured
`{"error": "Task execution failed: .."}` placeholder at its own position
without disturbing the other entries. -/
theorem C4_results_positionally_aligned :
    ∀ (answer : List Char) (registry : ToolRegistry) (env : Nat → TaskOutcome),
      ((get_tool_answer answer registry env).2).length = (extract_tool_uses answer).length ∧
      (∀ i, i < (extract_tool_uses answer).length →
        ((get_tool_answer answer registry env).2)[i]? =
          some (renderJoin registry i (env i))) ∧
      (∀ i dbg, i < (extract_tool_uses answer).length →
        env i = TaskOutcome.joinFailure dbg →
        ((get_tool_answer answer registry env).2)[i]? =
          some (String.mk [lbrace] ++
            "\"error\": \"Task execution failed: Task join error for call #" ++
            toString i ++ ": " ++ dbg ++ "\"" ++ String.mk [rbrace])) := by
  intro answer registry env
  cases hc : extract_tool_uses answer with
  | nil =>
    refine ⟨?_, ?_, ?_⟩
    · unfold get_tool_answer
      rw [hc]
      rfl
    · intro i hi
      simp at hi
    · intro i dbg hi _
      simp at hi
  | cons c cs =>
    have hne : extract_tool_uses answer ≠ [] := by rw [hc]; simp
    have hres := @get_tool_answer_results answer registry env hne
    rw [hc] at hres
    refine ⟨?_, ?_, ?_⟩
    · rw [hres]
      simp
    · intro i hi
      rw [hres, List.getElem?_map, List.getElem?_range hi]
      rfl
    · intro i dbg hi henv
      rw [hres, List.getElem?_map, List.getElem?_range hi]
      simp [renderJoin, henv]

/-- C4 witness: two directives, the second of which fails at the join
level, still give two results in extraction order with the placeholder at
position 1. -/
theorem C4_results_positionally_aligned_witness :
    ((get_tool_answer "x<ToolUse>a</ToolUse>y<ToolUse>b</ToolUse>z".toList []
          (fun i => if i = 0 then TaskOutcome.joined (Except.ok Json.null)
            else TaskOutcome.joinFailure "boom")).2).length =
        (extract_tool_uses "x<ToolUse>a</ToolUse>y<ToolUse>b</ToolUse>z".toList).length ∧
      ((get_tool_answer "x<ToolUse>a</ToolUse>y<ToolUse>b</ToolUse>z".toList []
          (fun i => if i = 0 then TaskOutcome.joined (Except.ok Json.null)
            else TaskOutcome.joinFailure "boom")).2)[1]? =
        some (String.mk [lbrace] ++
          "\"error\": \"Task execution failed: Task join error for call #" ++
          toString 1 ++ ": " ++ "boom" ++ "\"" ++ String.mk [rbrace]) :=
  ⟨(C4_results_positionally_aligned "x<ToolUse>a</ToolUse>y<ToolUse>b</ToolUse>z".toList []
      (fun i => if i = 0 then TaskOutcome.joined (Except.ok Json.null)
        else TaskOutcome.joinFailure "boom")).1,
    (C4_results_positionally_aligned "x<ToolUse>a</ToolUse>y<ToolUse>b</ToolUse>z".toList []
      (fun i => if i = 0 then TaskOutcome.joined (Except.ok Json.null)
        else TaskOutcome.joinFailure "boom")).2.2 1 "boom" (by decide) rfl⟩

/-- C5.  Function-not-found and function-execution failure are each
converted by `process_tool_call` into a descriptive result string returned
as an `Ok` value, never propagated as a pipeline error; hence when one of
`k > 1` dispatched calls targets an unregistered name while the others
resolve, hit the registry and execute successfully, `get_tool_answer`
still returns `k` results with the not-found error string at exactly the
bad call's position and every other position carrying its successful
serialized payload. -/
theorem C5_partial_failure_contained :
    (∀ (registry : ToolRegistry) (fc : Json) (name args : String) (arg : Json),
      (fc.get "name").as_str = some name →
      (fc.get "arguments").as_str = some args →
      Json.parse args = some arg →
      (lookupTool registry name = none →
        process_tool_call (Except.ok fc) registry =
          Except.ok ("Cannot find function named " ++ quoted name)) ∧
      (∀ tool_fn e, lookupTool registry name = some tool_fn →
        tool_fn arg = Except.error e →
        process_tool_call (Except.ok fc) registry =
          Except.ok ("Calling function " ++ quoted name ++ " failed: " ++ e))) ∧
    (∀ (answer : List Char) (registry : ToolRegistry) (env : Nat → TaskOutcome)
      (k j : Nat) (fc : Nat → Json) (name args : Nat → String) (arg : Nat → Json)
      (f : Nat → Json → Except String Json) (v : Nat → Json),
      (extract_tool_uses answer).length = k →
      1 < k → j < k →
      (∀ i, i < k → env i = TaskOutcome.joined (Except.ok (fc i))) →
      (∀ i, i < k → ((fc i).get "name").as_str = some (name i)) →
      (∀ i, i < k → ((fc i).get "arguments").as_str = some (args i)) →
      (∀ i, i < k → Json.parse (args i) = some (arg i)) →
      lookupTool registry (name j) = none →
      (∀ i, i < k → i ≠ j → lookupTool registry (name i) = some (f i)) →
      (∀ i, i < k → i ≠ j → f i (arg i) = Except.ok (v i)) →
      ((get_tool_answer answer registry env).2).length = k ∧
        ((get_tool_answer answer registry env).2)[j]? =
          some ("Cannot find function named " ++ quoted (name j)) ∧
        (∀ i, i < k → i ≠ j →
          ((get_tool_answer answer registry env).2)[i]? =
            some (Json.pretty (v i)))) := by
  constructor
  · intro registry fc name args arg h1 h2 h3
    constructor
    · intro hnone
      simp [process_tool_call, h1, h2, h3, hnone]
    · intro tool_fn e hsome hexec
      simp [process_tool_call, h1, h2, h3, hsome, hexec]
  · intro answer registry env k j fc name args arg f v hk h1k hjk henv hname hargs
      hparse hnotf hreg hok
    have hne : extract_tool_uses answer ≠ [] := by
      intro h
      rw [h] at hk
      simp at hk
      omega
    have hres := @get_tool_answer_results answer registry env hne
    rw [hk] at hres
    refine ⟨?_, ?_, ?_⟩
    · rw [hres]
      simp
    · rw [hres, List.getElem?_map, List.getElem?_range hjk]
      simp [renderJoin, henv j hjk, process_tool_call, hname j hjk, hargs j hjk,
        hparse j hjk, hnotf]
    · intro i hik hij
      rw [hres, List.getElem?_map, List.getElem?_range hik]
      simp [renderJoin, henv i hik, process_tool_call, hname i hik, hargs i hik,
        hparse i hik, hreg i hik hij, hok i hik hij]

/-- C5 witness: two directives, the first targeting the unregistered name
`"f"`, the second the registered `"g"`; the pipeline returns two results,
the not-found string first, `g`'s serialized payload second. -/
theorem C5_partial_failure_contained_witness :
    ((get_tool_answer "x<ToolUse>a</ToolUse><ToolUse>b</ToolUse>".toList
          [("g", fun _ => Except.ok Json.null)]
          (fun i => TaskOutcome.joined (Except.ok
            (if i = 0 then Json.obj [("name", Json.str "f"), ("arguments", Json.str "null")]
              else Json.obj [("name", Json.str "g"), ("arguments", Json.str "null")])))).2).length =
        2 ∧
      ((get_tool_answer "x<ToolUse>a</ToolUse><ToolUse>b</ToolUse>".toList
          [("g", fun _ => Except.ok Json.null)]
          (fun i => TaskOutcome.joined (Except.ok
            (if i = 0 then Json.obj [("name", Json.str "f"), ("arguments", Json.str "null")]
              else Json.obj [("name", Json.str "g"), ("arguments", Json.str "null")])))).2)[0]? =
        some ("Cannot find function named " ++ quoted "f") ∧
      ((get_tool_answer "x<ToolUse>a</ToolUse><ToolUse>b</ToolUse>".toList
          [("g", fun _ => Except.ok Json.null)]
          (fun i => TaskOutcome.joined (Except.ok
            (if i = 0 then Json.obj [("name", Json.str "f"), ("arguments", Json.str "null")]
              else Json.obj [("name", Json.str "g"), ("arguments", Json.str "null")])))).2)[1]? =
        some (Json.pretty Json.null) := by
  have h := C5_partial_failure_contained.2
    "x<ToolUse>a</ToolUse><ToolUse>b</ToolUse>".toList
    [("g", fun _ => Except.ok Json.null)]
    (fun i => TaskOutcome.joined (Except.ok
      (if i = 0 then Json.obj [("name", Json.str "f"), ("arguments", Json.str "null")]
        else Json.obj [("name", Json.str "g"), ("arguments", Json.str "null")])))
    2 0
    (fun i => if i = 0 then Json.obj [("name", Json.str "f"), ("arguments", Json.str "null")]
      else Json.obj [("name", Json.str "g"), ("arguments", Json.str "null")])
    (fun i => if i = 0 then "f" else "g")
    (fun _ => "null")
    (fun _ => Json.null)
    (fun _ => fun _ => Except.ok Json.null)
    (fun _ => Json.null)
    (by decide) (by decide) (by decide)
    (fun i _ => rfl)
    (by
      intro i hi
      rcases i with _ | _ | i
      · rfl
      · rfl
      · omega)
    (by
      intro i hi
      rcases i with _ | _ | i
      · rfl
      · rfl
      · omega)
    (by
      intro i hi
      rcases i with _ | _ | i
      · rfl
      · rfl
      · omega)
    rfl
    (by
      intro i hi hij
      rcases i with _ | _ | i
      · exact absurd rfl hij
      · rfl
      · omega)
    (by
      intro i hi hij
      rcases i with _ | _ | i
      · exact absurd rfl hij
      · rfl
      · omega)
  exact ⟨h.1, h.2.1, h.2.2 1 (by omega) (by omega)⟩

/-- Bridge between the executable `isPrefixOf` and the `<+:` relation. -/
theorem isPrefixOf_to_pref {l₁ l₂ : List Char} : l₁.isPrefixOf l₂ = true ↔ l₁ <+: l₂ := by
  simpa using List.isPrefixOf_iff_prefix

/-- A prefix is an infix. -/
theorem infix_of_pref {α : Type} {a b : List α} (h : a <+: b) : a <:+: b :=
  List.IsPrefix.isInfix h

/-- A suffix is an infix. -/
theorem infix_of_suff {α : Type} {a b : List α} (h : a <:+ b) : a <:+: b :=
  List.IsSuffix.isInfix h

/-- An infix is exactly a prefix of some drop. -/
theorem infix_iff_pref_drop {α : Type} {p s : List α} :
    p <:+: s ↔ ∃ i, p <+: s.drop i := by
  constructor
  · intro h
    obtain ⟨a, b, hab⟩ := h
    refine ⟨a.length, ?_⟩
    rw [← hab, List.append_assoc, List.drop_left]
    exact List.prefix_append p b
  · intro ⟨i, h⟩
    obtain ⟨t, ht⟩ := h
    exact ⟨s.take i, t, by rw [List.append_assoc, ht, List.take_append_drop]⟩

/-- A prefix of length `n` pins down the first `n` elements. -/
theorem pref_take {α : Type} {p l : List α} (h : p <+: l) : p = l.take p.length := by
  obtain ⟨t, ht⟩ := h
  rw [← ht, List.take_left]

/-- Dropping the same amount from a prefix keeps it a prefix. -/
theorem pref_drop {α : Type} {p l : List α} (n : Nat) (h : p <+: l) (hn : n ≤ p.length) :
    p.drop n <+: l.drop n := by
  obtain ⟨t, ht⟩ := h
  exact ⟨t, by rw [← ht, List.drop_append_of_le_length hn]⟩

/-- Splitting a prefix of an appended list: the prefix either fits inside
the left part or covers it and continues into the right part. -/
theorem pref_append_split {α : Type} {p x b : List α} (h : p <+: x ++ b) :
    (p.length ≤ x.length ∧ p <+: x) ∨
      (x.length < p.length ∧ p.take x.length = x ∧ p.drop x.length <+: b) := by
  obtain ⟨t, ht⟩ := h
  by_cases hle : p.length ≤ x.length
  · left
    refine ⟨hle, ?_⟩
    have hfull : p = (x ++ b).take p.length := by
      rw [← ht, List.take_left]
    have hx : p = x.take p.length := by
      conv_lhs => rw [hfull]
      exact List.take_append_of_le_length hle
    refine ⟨x.drop p.length, ?_⟩
    nth_rewrite 1 [hx]
    exact List.take_append_drop _ _
  · right
    push_neg at hle
    refine ⟨hle, ?_, ?_⟩
    · have : (p ++ t).take x.length = (x ++ b).take x.length := by rw [ht]
      rw [List.take_append_of_le_length (Nat.le_of_lt hle), List.take_left] at this
      exact this
    · have : (p ++ t).drop x.length = (x ++ b).drop x.length := by rw [ht]
      rw [List.drop_append_of_le_length (Nat.le_of_lt hle), List.drop_left] at this
      exact ⟨t, this⟩

/-- The fuel of `removeAllF` is irrelevant once it covers the input
length. -/
theorem removeAllF_congr :
    ∀ (f₁ f₂ : Nat) (pat s : List Char), s.length ≤ f₁ → s.length ≤ f₂ →
      removeAllF f₁ pat s = removeAllF f₂ pat s := by
  intro f₁
  induction f₁ with
  | zero =>
    intro f₂ pat s h1 _
    have : s = [] := by
      cases s with
      | nil => rfl
      | cons a t => simp at h1
    subst this
    cases f₂ <;> rfl
  | succ f ih =>
    intro f₂ pat s h1 h2
    cases s with
    | nil => cases f₂ <;> rfl
    | cons ch t =>
      cases f₂ with
      | zero => simp at h2
      | succ f₂' =>
        show removeAllF (f + 1) pat (ch :: t) = removeAllF (f₂' + 1) pat (ch :: t)
        simp only [removeAllF]
        by_cases hc : pat ≠ [] ∧ pat.isPrefixOf (ch :: t)
        · rw [if_pos hc, if_pos hc]
          have hplen : 1 ≤ pat.length := by
            cases pat with
            | nil => exact absurd rfl hc.1
            | cons q qs => simp
          have hd : ((ch :: t).drop pat.length).length ≤ t.length := by
            simp only [List.length_drop, List.length_cons]
            omega
          have ht1 : t.length ≤ f := by
            simp only [List.length_cons] at h1
            omega
          have ht2 : t.length ≤ f₂' := by
            simp only [List.length_cons] at h2
            omega
          exact ih f₂' pat _ (Nat.le_trans hd ht1) (Nat.le_trans hd ht2)
        · rw [if_neg hc, if_neg hc]
          have ht1 : t.length ≤ f := by
            simp only [List.length_cons] at h1
            omega
          have ht2 : t.length ≤ f₂' := by
            simp only [List.length_cons] at h2
            omega
          rw [ih f₂' pat t ht1 ht2]

/-- Computing `removeAll` on the empty string. -/
theorem removeAll_nil (pat : List Char) : removeAll pat [] = [] := rfl

/-- The one-step unfolding of `removeAll`. -/
theorem removeAll_cons (pat : List Char) (ch : Char) (t : List Char) :
    removeAll pat (ch :: t) =
      if pat ≠ [] ∧ pat.isPrefixOf (ch :: t) then removeAll pat ((ch :: t).drop pat.length)
      else ch :: removeAll pat t := by
  show removeAllF (t.length + 1) pat (ch :: t) = _
  simp only [removeAllF]
  by_cases hc : pat ≠ [] ∧ pat.isPrefixOf (ch :: t)
  · rw [if_pos hc, if_pos hc]
    have hplen : 1 ≤ pat.length := by
      cases pat with
      | nil => exact absurd rfl hc.1
      | cons q qs => simp
    apply removeAllF_congr
    · simp only [List.length_drop, List.length_cons]
      omega
    · simp only [List.length_drop, List.length_cons]
      omega
  · rw [if_neg hc, if_neg hc]
    rfl

/-- A string containing no occurrence of the pattern is left unchanged by
`removeAll`. -/
theorem removeAll_of_no_occur {pat : List Char} (s : List Char)
    (h : ¬ pat <:+: s) : removeAll pat s = s := by
  induction s with
  | nil => rfl
  | cons ch t ih =>
    rw [removeAll_cons]
    have hnp : ¬ (pat ≠ [] ∧ pat.isPrefixOf (ch :: t)) := by
      rintro ⟨-, hpre⟩
      exact h (infix_of_pref (isPrefixOf_to_pref.mp hpre))
    rw [if_neg hnp]
    rw [ih (fun hin => h (List.infix_cons hin))]

/-- Fold `removeAll` skips over a block within which no occurrence of the
pattern starts. -/
theorem removeAll_append_left {pat : List Char} (a : List Char) {b : List Char}
    (h : ∀ i, i < a.length → ¬ pat <+: (a ++ b).drop i) :
    removeAll pat (a ++ b) = a ++ removeAll pat b := by
  induction a with
  | nil => rfl
  | cons ch t ih =>
    rw [List.cons_append, removeAll_cons]
    have hnp : ¬ (pat ≠ [] ∧ pat.isPrefixOf (ch :: (t ++ b))) := by
      rintro ⟨-, hpre⟩
      exact h 0 (by simp) (by simpa using isPrefixOf_to_pref.mp hpre)
    rw [if_neg hnp]
    rw [ih (fun i hi hp => h (i + 1) (by simpa using hi) (by simpa using hp))]
    rw [List.cons_append]

/-- Fold `removeAll` erases a pattern occurrence sitting at the head. -/
theorem removeAll_head {pat : List Char} (hp : pat ≠ []) (b : List Char) :
    removeAll pat (pat ++ b) = removeAll pat b := by
  obtain ⟨q, qs, hq⟩ : ∃ q qs, pat = q :: qs := by
    cases pat with
    | nil => exact absurd rfl hp
    | cons q qs => exact ⟨q, qs, rfl⟩
  have hne : pat ++ b = q :: (qs ++ b) := by rw [hq]; rfl
  rw [hne, removeAll_cons]
  have hcond : pat ≠ [] ∧ pat.isPrefixOf (q :: (qs ++ b)) := by
    rw [← hne]
    exact ⟨hp, isPrefixOf_to_pref.mpr (List.prefix_append pat b)⟩
  rw [if_pos hcond]
  have hdrop : (q :: (qs ++ b)).drop pat.length = b := by
    rw [← hne]
    exact List.drop_left _ _
  rw [hdrop]

/-- C6 counterexample: for the answer
`<ToolUse>a</ToolUse><ToolUse>b<ToolUse>a</ToolUse>c</ToolUse>` the two
extracted directives are `a` and `b<ToolUse>a`, and the replace-based
strip yields `<ToolUse>bc</ToolUse>`, while removing exactly the two
matched directive substrings and keeping the surrounding text would yield
`c</ToolUse>`: the fold of `replace(pattern, "")` also erases an
occurrence of the first pattern *inside* the second matched directive, so
`clean_answer` is not the answer with the matched substrings removed. -/
theorem C6_strip_counterexample :
    (get_tool_answer "<ToolUse>a</ToolUse><ToolUse>b<ToolUse>a</ToolUse>c</ToolUse>".toList
          [] (fun _ => TaskOutcome.joinFailure "e")).1 =
        "<ToolUse>bc</ToolUse>".toList ∧
      strip_spec "<ToolUse>a</ToolUse><ToolUse>b<ToolUse>a</ToolUse>c</ToolUse>".toList =
        "c</ToolUse>".toList ∧
      (get_tool_answer "<ToolUse>a</ToolUse><ToolUse>b<ToolUse>a</ToolUse>c</ToolUse>".toList
          [] (fun _ => TaskOutcome.joinFailure "e")).1 ≠
        strip_spec "<ToolUse>a</ToolUse><ToolUse>b<ToolUse>a</ToolUse>c</ToolUse>".toList := by
  refine ⟨by decide, by decide, by decide⟩

/-- The directive pattern is never the empty string. -/
theorem dirPat_ne_nil (c : List Char) : dirPat c ≠ [] := by
  intro h
  have hlen : (dirPat c).length = 0 := by rw [h]; rfl
  simp [dirPat, openTag, closeTag] at hlen

/-- The open tag starts every directive pattern. -/
theorem open_pref_dirPat (c : List Char) : openTag <+: dirPat c := by
  unfold dirPat
  rw [List.append_assoc]
  exact List.prefix_append _ _

/-- The first nine characters of a directive pattern are the open tag. -/
theorem dirPat_take_open (c : List Char) : (dirPat c).take 9 = openTag := by
  unfold dirPat
  rw [List.append_assoc, List.take_append_of_le_length (by rfl)]
  rfl

/-- A string whose first nine characters are the open tag has the open tag
as a prefix. -/
theorem open_pref_of_take {x : List Char} (h : x.take 9 = openTag) : openTag <+: x :=
  ⟨x.drop 9, by rw [← h]; exact List.take_append_drop _ _⟩

/-- A suffix is a drop from the length difference. -/
theorem suff_drop {α : Type} {s l : List α} (h : s <:+ l) :
    s = l.drop (l.length - s.length) := by
  obtain ⟨u, hu⟩ := h
  have : l.length - s.length = u.length := by
    rw [← hu, List.length_append]
    omega
  rw [this, ← hu, List.drop_left]

/-- A short suffix of an appended list is a suffix of the right part. -/
theorem suff_of_suff_append {α : Type} {s y z : List α} (h : s <:+ y ++ z)
    (hl : s.length ≤ z.length) : s <:+ z := by
  obtain ⟨u, hu⟩ := h
  have hlen : u.length + s.length = y.length + z.length := by
    have := congrArg List.length hu
    simp [List.length_append] at this
    omega
  have hyu : y.length ≤ u.length := by omega
  refine ⟨u.drop y.length, ?_⟩
  have := congrArg (List.drop y.length) hu
  rw [List.drop_append_of_le_length hyu, List.drop_left] at this
  exact this

/-- Cancelling a common front block of a prefix relation. -/
theorem pref_cancel_left {α : Type} {a b d : List α} (h : a ++ b <+: a ++ d) :
    b <+: d := by
  have := pref_drop a.length h (by simp)
  rwa [List.drop_left, List.drop_left] at this

/-- No proper tail of the open tag begins an open-tag-headed string: the
open tag has no non-trivial self-overlap. -/
theorem open_tail_not_pref_open {m : Nat} (h1 : 0 < m) (h2 : m < 9) (X : List Char) :
    ¬ openTag.drop m <+: openTag ++ X := by
  intro h
  rcases pref_append_split h with ⟨hlen, hpre⟩ | ⟨hgt, -, -⟩
  · interval_cases m <;> revert hpre <;> decide
  · have h9 : openTag.length = 9 := rfl
    rw [List.length_drop, h9] at hgt
    omega

/-- No proper tail of the open tag begins a close-tag-headed string. -/
theorem open_tail_not_pref_close {m : Nat} (h1 : 0 < m) (h2 : m < 9) (X : List Char) :
    ¬ openTag.drop m <+: closeTag ++ X := by
  intro h
  rcases pref_append_split h with ⟨hlen, hpre⟩ | ⟨hgt, hteq, -⟩
  · interval_cases m <;> revert hpre <;> decide
  · have h9 : openTag.length = 9 := rfl
    have h10 : closeTag.length = 10 := rfl
    rw [List.length_drop, h9, h10] at hgt
    have hm : m = 0 := by omega
    omega

/-- The open tag never begins a string that starts inside the close tag. -/
theorem open_not_pref_close_tail {u : Nat} (hu : u < 10) (X : List Char) :
    ¬ openTag <+: closeTag.drop u ++ X := by
  intro h
  rcases pref_append_split h with ⟨hlen, hpre⟩ | ⟨hgt, hteq, -⟩
  · have h10 : closeTag.length = 10 := rfl
    rw [List.length_drop, h10] at hlen
    have h9 : openTag.length = 9 := rfl
    rw [h9] at hlen
    have hu1 : u ≤ 1 := by omega
    interval_cases u <;> revert hpre <;> decide
  · interval_cases u <;> revert hteq <;> decide

/-- The open tag does not occur strictly inside a directive pattern whose
call text is free of open tags, however the text continues. -/
theorem no_open_inside_dirPat {c : List Char} (hc : ¬ openTag <:+: c) {q : Nat}
    (hq1 : 0 < q) (hq2 : q < (dirPat c).length) (X : List Char) :
    ¬ openTag <+: (dirPat c).drop q ++ X := by
  intro h
  have h9 : openTag.length = 9 := rfl
  have h10 : closeTag.length = 10 := rfl
  have hdlen : (dirPat c).length = 19 + c.length := by
    simp [dirPat, openTag, closeTag]
    omega
  by_cases hq9 : q < 9
  · have hdrop : (dirPat c).drop q = openTag.drop q ++ (c ++ closeTag) := by
      unfold dirPat
      rw [List.append_assoc, List.drop_append_of_le_length (by omega)]
    rw [hdrop, List.append_assoc] at h
    rcases pref_append_split h with ⟨hlen, -⟩ | ⟨-, hteq, -⟩
    · rw [List.length_drop, h9] at hlen
      omega
    · have : openTag.take (openTag.drop q).length = openTag.take (9 - q) := by
        rw [List.length_drop, h9]
      rw [this] at hteq
      interval_cases q <;> revert hteq <;> decide
  · by_cases hqc : q < 9 + c.length
    · have hstep : (openTag ++ (c ++ closeTag)).drop (openTag.length + (q - 9)) =
          (c ++ closeTag).drop (q - 9) := List.drop_append (q - 9)
      have hnum : openTag.length + (q - 9) = q := by rw [h9]; omega
      rw [hnum] at hstep
      have hdrop : (dirPat c).drop q = c.drop (q - 9) ++ closeTag := by
        unfold dirPat
        rw [List.append_assoc, hstep, List.drop_append_of_le_length (by omega)]
      rw [hdrop, List.append_assoc] at h
      rcases pref_append_split h with ⟨-, hpre⟩ | ⟨hgt, hteq, hrest⟩
      · exact hc (List.IsInfix.trans (infix_of_pref hpre) (infix_of_suff (List.drop_suffix _ _)))
      · have hl : (c.drop (q - 9)).length = c.length - (q - 9) := by
          rw [List.length_drop]
        have hlpos : 0 < (c.drop (q - 9)).length := by omega
        have hllt : (c.drop (q - 9)).length < 9 := by
          rw [h9] at hgt
          omega
        have := open_tail_not_pref_close (m := (c.drop (q - 9)).length) hlpos hllt X
        exact this hrest
    · have hu : q - 9 - c.length < 10 := by omega
      have hstep : ((openTag ++ c) ++ closeTag).drop
            ((openTag ++ c).length + (q - 9 - c.length)) =
          closeTag.drop (q - 9 - c.length) := List.drop_append _
      have hnum : (openTag ++ c).length + (q - 9 - c.length) = q := by
        rw [List.length_append, h9]
        omega
      rw [hnum] at hstep
      have hdrop : (dirPat c).drop q = closeTag.drop (q - 9 - c.length) := by
        unfold dirPat
        exact hstep
      rw [hdrop] at h
      exact open_not_pref_close_tail hu X h

/-- Two call texts free of close tags with the same `{call}</ToolUse>`
front must be equal: the close tag cannot sit early inside the longer
one. -/
theorem call_close_pref_cancel {c c' X : List Char} (hc : ¬ closeTag <:+: c)
    (hc' : ¬ closeTag <:+: c') (h : c' ++ closeTag <+: (c ++ closeTag) ++ X) :
    c' = c := by
  have h10 : closeTag.length = 10 := rfl
  rcases Nat.lt_trichotomy c'.length c.length with hlt | heq | hgt
  · -- c' shorter than c: the close tag would occur inside c
    have hin : c' ++ closeTag <+: c ++ closeTag := by
      rcases pref_append_split h with ⟨-, hp⟩ | ⟨hgt2, -, -⟩
      · exact hp
      · rw [List.length_append, List.length_append, h10] at hgt2
        omega
    have hc'take : c' = c.take c'.length := by
      have hp : c' <+: c ++ closeTag :=
        List.IsPrefix.trans (List.prefix_append c' closeTag) hin
      have := pref_take hp
      rw [List.take_append_of_le_length (by omega)] at this
      exact this
    have hdropped := pref_drop c'.length hin (by simp)
    rw [List.drop_left] at hdropped
    have hsplit : (c ++ closeTag).drop c'.length = c.drop c'.length ++ closeTag := by
      rw [List.drop_append_of_le_length (by omega)]
    rw [hsplit] at hdropped
    rcases pref_append_split hdropped with ⟨hlen, hpre⟩ | ⟨hgt2, hteq, hrest⟩
    · exact absurd
        (List.IsInfix.trans (infix_of_pref hpre) (infix_of_suff (List.drop_suffix _ _))) hc
    · exfalso
      have hm0 : 0 < c.length - c'.length := by omega
      have hm10 : c.length - c'.length < 10 := by
        have hld : (c.drop c'.length).length = c.length - c'.length := by
          rw [List.length_drop]
        rw [hld, h10] at hgt2
        exact hgt2
      have hcltake := pref_take hrest
      simp only [List.length_drop, h10] at hcltake
      generalize hM : c.length - c'.length = m at hcltake hm0 hm10
      interval_cases m <;> revert hcltake <;> decide
  · -- equal lengths: the prefixes coincide
    have hlen : (c' ++ closeTag).length = (c ++ closeTag).length := by
      rw [List.length_append, List.length_append, heq]
    have hin : c' ++ closeTag <+: c ++ closeTag := by
      rcases pref_append_split h with ⟨-, hp⟩ | ⟨hgt2, -, -⟩
      · exact hp
      · omega
    have := pref_take hin
    rw [hlen, List.take_length] at this
    exact List.append_cancel_right this
  · -- c' longer than c: the close tag would occur inside c'
    exfalso
    have hdrop := pref_drop c.length h (by rw [List.length_append]; omega)
    have hL : (c' ++ closeTag).drop c.length = c'.drop c.length ++ closeTag := by
      rw [List.drop_append_of_le_length (by omega)]
    have hR : ((c ++ closeTag) ++ X).drop c.length = closeTag ++ X := by
      rw [List.drop_append_of_le_length (by rw [List.length_append]; omega)]
      rw [List.drop_append_of_le_length (by omega), List.drop_length]
      simp
    rw [hL, hR] at hdrop
    set u := c'.drop c.length with hu
    have hulen : u.length = c'.length - c.length := by
      rw [hu, List.length_drop]
    have hupos : 0 < u.length := by omega
    rcases pref_append_split hdrop with ⟨hlen, -⟩ | ⟨-, hteq, -⟩
    · rw [List.length_append, h10] at hlen
      omega
    · rw [h10] at hteq
      by_cases hu10 : 10 ≤ u.length
      · have htk : (u ++ closeTag).take 10 = u.take 10 :=
          List.take_append_of_le_length hu10
        rw [htk] at hteq
        apply hc'
        have h1 : closeTag <+: u := by
          rw [← hteq]
          exact ⟨u.drop 10, List.take_append_drop _ _⟩
        have h2 : u <:+ c' := by
          rw [hu]
          exact List.drop_suffix _ _
        exact List.IsInfix.trans (infix_of_pref h1) (infix_of_suff h2)
      · push_neg at hu10
        have htk : (u ++ closeTag).take 10 = u ++ closeTag.take (10 - u.length) := by
          rw [List.take_append_eq_append_take]
          congr 1
          exact List.take_of_length_le (by omega)
        rw [htk] at hteq
        have hdropeq := congrArg (List.drop u.length) hteq
        rw [List.drop_left] at hdropeq
        have hm0 : 0 < u.length := hupos
        generalize hM : u.length = m at hdropeq hm0 hu10
        interval_cases m <;> revert hdropeq <;> decide

/-- A directive pattern beginning where another directive pattern sits
forces the two call texts to coincide. -/
theorem dirPat_pref_dirPat {c c' X : List Char} (hc : ¬ closeTag <:+: c)
    (hc' : ¬ closeTag <:+: c') (h : dirPat c' <+: dirPat c ++ X) : c' = c := by
  have hsplit : dirPat c ++ X = openTag ++ ((c ++ closeTag) ++ X) := by
    simp [dirPat, List.append_assoc]
  have hsplit' : dirPat c' = openTag ++ (c' ++ closeTag) := by
    unfold dirPat
    rw [List.append_assoc]
  rw [hsplit, hsplit'] at h
  exact call_close_pref_cancel hc hc' (pref_cancel_left h)

/-- No directive pattern occurrence starts inside an open-tag-free block
`G`, when every proper tail of the open tag fails to begin the
continuation. -/
theorem no_dirPat_start_in_open_free {G cont c : List Char}
    (hG : ¬ openTag <:+: G)
    (hcont : ∀ m, 0 < m → m < 9 → ¬ openTag.drop m <+: cont) :
    ∀ i, i < G.length → ¬ dirPat c <+: (G ++ cont).drop i := by
  intro i hi h
  rw [List.drop_append_of_le_length (Nat.le_of_lt hi)] at h
  have h9 : openTag.length = 9 := rfl
  rcases pref_append_split h with ⟨hlen, hpre⟩ | ⟨hgt, hteq, hrest⟩
  · have hopen : openTag <+: G.drop i :=
      List.IsPrefix.trans (open_pref_dirPat c) hpre
    exact hG (List.IsInfix.trans (infix_of_pref hopen) (infix_of_suff (List.drop_suffix _ _)))
  · have hm : (G.drop i).length = G.length - i := by rw [List.length_drop]
    by_cases hm9 : 9 ≤ (G.drop i).length
    · have hopen : openTag <+: (dirPat c).take (G.drop i).length := by
        apply open_pref_of_take
        rw [List.take_take]
        have : min 9 (G.drop i).length = 9 := by omega
        rw [this]
        exact dirPat_take_open c
      rw [hteq] at hopen
      exact hG (List.IsInfix.trans (infix_of_pref hopen) (infix_of_suff (List.drop_suffix _ _)))
    · push_neg at hm9
      have hmpos : 0 < (G.drop i).length := by omega
      have hdtail : openTag.drop (G.drop i).length <+: (dirPat c).drop (G.drop i).length := by
        have hdrop : (dirPat c).drop (G.drop i).length =
            openTag.drop (G.drop i).length ++ (c ++ closeTag) := by
          unfold dirPat
          rw [List.append_assoc, List.drop_append_of_le_length (by omega)]
        rw [hdrop]
        exact List.prefix_append _ _
      have := List.IsPrefix.trans hdtail hrest
      exact hcont (G.drop i).length hmpos hm9 this

/-- No occurrence of the directive pattern of `c` starts inside the block
`G ++ dirPat c'` when `G` is open-tag-free, `c'` is tag-free, and
`c ≠ c'`: the only pattern start inside the block is `dirPat c'` itself. -/
theorem no_dirPat_start_in_block {G c' c R : List Char}
    (hG : ¬ openTag <:+: G) (hco : ¬ openTag <:+: c') (hcc' : ¬ closeTag <:+: c')
    (hcc : ¬ closeTag <:+: c) (hne : c ≠ c') :
    ∀ i, i < (G ++ dirPat c').length → ¬ dirPat c <+: ((G ++ dirPat c') ++ R).drop i := by
  intro i hi h
  rw [List.append_assoc] at h
  rcases Nat.lt_trichotomy i G.length with hiG | hiG | hiG
  · have hcont : ∀ m, 0 < m → m < 9 → ¬ openTag.drop m <+: dirPat c' ++ R := by
      intro m hm1 hm2 hp
      have hsplit : dirPat c' ++ R = openTag ++ (c' ++ (closeTag ++ R)) := by
        simp [dirPat, List.append_assoc]
      rw [hsplit] at hp
      exact open_tail_not_pref_open hm1 hm2 _ hp
    exact no_dirPat_start_in_open_free hG hcont i hiG h
  · subst hiG
    rw [List.drop_left] at h
    exact hne (dirPat_pref_dirPat hcc' hcc h)
  · have hq2 : i - G.length < (dirPat c').length := by
      rw [List.length_append] at hi
      omega
    have hq1 : 0 < i - G.length := by omega
    have hstep : (G ++ (dirPat c' ++ R)).drop (G.length + (i - G.length)) =
        (dirPat c' ++ R).drop (i - G.length) := List.drop_append _
    rw [show G.length + (i - G.length) = i from by omega] at hstep
    rw [hstep, List.drop_append_of_le_length (Nat.le_of_lt hq2)] at h
    have hopen : openTag <+: (dirPat c').drop (i - G.length) ++ R :=
      List.IsPrefix.trans (open_pref_dirPat c) h
    exact no_open_inside_dirPat hco hq1 hq2 R hopen

/-- One step of the strip fold: removing every occurrence of the pattern
of a tag-free call `c` from a partially stripped answer deletes exactly
the surviving matched directives carrying `c`, provided the fully
stripped text `J` contains no open tag and all call texts are tag-free.
`B` is the already-visited front block. -/
theorem strip_step (J : List Char) (hJ : ¬ openTag <:+: J) :
    ∀ (ps : List (List Char × List Char)) (tl : List Char) (done : List (List Char))
      (B c : List Char),
      (B ++ segsJoin ps tl) <:+: J →
      ¬ openTag <:+: c → ¬ closeTag <:+: c →
      (∀ p ∈ ps, ¬ openTag <:+: p.2 ∧ ¬ closeTag <:+: p.2) →
      removeAll (dirPat c) (B ++ residual ps tl done) = B ++ residual ps tl (c :: done) := by
  intro ps
  induction ps with
  | nil =>
    intro tl done B c hB hco hcc hps
    simp only [segsJoin] at hB
    show removeAll (dirPat c) (B ++ tl) = B ++ tl
    apply removeAll_of_no_occur
    intro hin
    exact hJ (List.IsInfix.trans
      (List.IsInfix.trans (infix_of_pref (open_pref_dirPat c)) hin) hB)
  | cons p ps ih =>
    obtain ⟨s, c'⟩ := p
    intro tl done B c hB hco hcc hps
    have hc' := hps (s, c') (List.mem_cons_self _ _)
    have hps' : ∀ q ∈ ps, ¬ openTag <:+: q.2 ∧ ¬ closeTag <:+: q.2 :=
      fun q hq => hps q (List.mem_cons_of_mem _ hq)
    have hBs : (B ++ (s ++ segsJoin ps tl)) <:+: J := by
      simpa [segsJoin] using hB
    have hBs' : ((B ++ s) ++ segsJoin ps tl) <:+: J := by
      rw [List.append_assoc]
      exact hBs
    have hGfree : ¬ openTag <:+: B ++ s := by
      intro hin
      apply hJ
      have hpre : (B ++ s) <+: (B ++ s) ++ segsJoin ps tl := List.prefix_append _ _
      exact List.IsInfix.trans (List.IsInfix.trans hin (infix_of_pref hpre)) hBs'
    have hTail : ([] ++ segsJoin ps tl) <:+: J := by
      have hsf : segsJoin ps tl <:+ (B ++ s) ++ segsJoin ps tl := List.suffix_append _ _
      simpa using List.IsInfix.trans (infix_of_suff hsf) hBs'
    by_cases hdone : c' ∈ done
    · have hmem : c' ∈ c :: done := List.mem_cons_of_mem _ hdone
      simp only [residual, if_pos hdone, if_pos hmem]
      rw [← List.append_assoc, ← List.append_assoc]
      exact ih tl done (B ++ s) c hBs' hco hcc hps'
    · by_cases heq : c' = c
      · subst heq
        have hmem : c' ∈ c' :: done := List.mem_cons_self _ _
        simp only [residual, if_neg hdone, if_pos hmem]
        have hshape : B ++ (s ++ openTag ++ c' ++ closeTag ++ residual ps tl done) =
            (B ++ s) ++ (dirPat c' ++ residual ps tl done) := by
          simp [dirPat, List.append_assoc]
        rw [hshape]
        have hNoStart : ∀ i, i < (B ++ s).length →
            ¬ dirPat c' <+: ((B ++ s) ++ (dirPat c' ++ residual ps tl done)).drop i := by
          apply no_dirPat_start_in_open_free hGfree
          intro m hm1 hm2 hp
          have hsplit : dirPat c' ++ residual ps tl done =
              openTag ++ (c' ++ (closeTag ++ residual ps tl done)) := by
            simp [dirPat, List.append_assoc]
          rw [hsplit] at hp
          exact open_tail_not_pref_open hm1 hm2 _ hp
        rw [removeAll_append_left (B ++ s) hNoStart]
        rw [removeAll_head (dirPat_ne_nil c')]
        have hIH := ih tl done [] c' hTail hco hcc hps'
        simp only [List.nil_append] at hIH
        rw [hIH]
        simp [List.append_assoc]
      · have hmem : c' ∉ c :: done := by
          intro h
          rcases List.mem_cons.mp h with h1 | h1
          · exact heq h1
          · exact hdone h1
        simp only [residual, if_neg hdone, if_neg hmem]
        have hshape : ∀ R, B ++ (s ++ openTag ++ c' ++ closeTag ++ R) =
            ((B ++ s) ++ dirPat c') ++ R := by
          intro R
          simp [dirPat, List.append_assoc]
        rw [hshape, hshape]
        have hNoStart : ∀ i, i < ((B ++ s) ++ dirPat c').length →
            ¬ dirPat c <+: (((B ++ s) ++ dirPat c') ++ residual ps tl done).drop i :=
          no_dirPat_start_in_block hGfree hc'.1 hc'.2 hcc (fun hh => heq hh.symm)
        rw [removeAll_append_left ((B ++ s) ++ dirPat c') hNoStart]
        have hIH := ih tl done [] c hTail hco hcc hps'
        simp only [List.nil_append] at hIH
        rw [hIH]

/-- With nothing yet stripped, the residual is the assembled answer. -/
theorem residual_nil_done (ps : List (List Char × List Char)) (tl : List Char) :
    residual ps tl [] = assemble ps tl := by
  induction ps with
  | nil => rfl
  | cons p ps ih =>
    obtain ⟨a, c⟩ := p
    simp only [residual, assemble]
    rw [if_neg (by simp)]
    rw [ih]

/-- Once every call text has been stripped, the residual is the join of
the segments. -/
theorem residual_all_done {ps : List (List Char × List Char)} {tl : List Char}
    {done : List (List Char)} (h : ∀ p ∈ ps, p.2 ∈ done) :
    residual ps tl done = segsJoin ps tl := by
  induction ps with
  | nil => rfl
  | cons p ps ih =>
    obtain ⟨a, c⟩ := p
    simp only [residual, segsJoin]
    rw [if_pos (h (a, c) (List.mem_cons_self _ _))]
    rw [ih (fun q hq => h q (List.mem_cons_of_mem _ hq))]

/-- The whole strip fold: folding `removeAll` over the call texts turns
the partially stripped answer into the residual with those calls
stripped. -/
theorem strip_fold (ps : List (List Char × List Char)) (tl : List Char)
    (hJ : ¬ openTag <:+: segsJoin ps tl)
    (hps : ∀ p ∈ ps, ¬ openTag <:+: p.2 ∧ ¬ closeTag <:+: p.2) :
    ∀ (cs : List (List Char)) (done : List (List Char)),
      (∀ x ∈ cs, ¬ openTag <:+: x ∧ ¬ closeTag <:+: x) →
      List.foldl (fun acc c => removeAll (dirPat c) acc) (residual ps tl done) cs =
        residual ps tl (cs.reverse ++ done) := by
  intro cs
  induction cs with
  | nil =>
    intro done _
    simp
  | cons c cs ihc =>
    intro done hcs
    simp only [List.foldl_cons]
    have hc := hcs c (List.mem_cons_self _ _)
    have hstep := strip_step (segsJoin ps tl) hJ ps tl done [] c
      (by simpa using List.infix_rfl) hc.1 hc.2 hps
    simp only [List.nil_append] at hstep
    rw [hstep]
    rw [ihc (c :: done) (fun x hx => hcs x (List.mem_cons_of_mem _ hx))]
    congr 1
    simp [List.append_assoc]

/-- Scanner `findClose` splits its input at the first close tag. -/
theorem findClose_decomp :
    ∀ (u cs r : List Char), findClose u = some (cs, r) → u = cs ++ closeTag ++ r := by
  intro u
  induction u with
  | nil =>
    intro cs r h
    simp [findClose] at h
  | cons ch t ih =>
    intro cs r h
    by_cases hp : closeTag.isPrefixOf (ch :: t)
    · rw [findClose, if_pos hp] at h
      obtain ⟨hcs, hr⟩ := Prod.mk.injEq .. ▸ Option.some.injEq _ _ ▸ h
      obtain ⟨w, hw⟩ := isPrefixOf_to_pref.mp hp
      have hwdrop : (ch :: t).drop closeTag.length = w := by
        rw [← hw, List.drop_left]
      simp only [Option.some.injEq, Prod.mk.injEq] at h
      obtain ⟨hcs, hr⟩ := h
      rw [← hcs, ← hr, hwdrop, ← hw]
      simp
    · rw [findClose, if_neg hp] at h
      cases hf : findClose t with
      | none => rw [hf] at h; simp at h
      | some cr =>
        obtain ⟨c', r'⟩ := cr
        rw [hf] at h
        simp only [Option.some.injEq, Prod.mk.injEq] at h
        obtain ⟨hcs, hr⟩ := h
        have := ih c' r' hf
        rw [← hcs, ← hr]
        simp [this]

/-- Reassembling a scan recovers the input (fueled version). -/
theorem assemble_scanF :
    ∀ (fuel : Nat) (s : List Char), s.length ≤ fuel →
      assemble (scanPiecesF fuel s).1 (scanPiecesF fuel s).2 = s := by
  intro fuel
  induction fuel with
  | zero =>
    intro s h
    have hs : s = [] := by
      cases s with
      | nil => rfl
      | cons a t => simp at h
    subst hs
    rfl
  | succ f ih =>
    intro s hs
    by_cases hp : openTag.isPrefixOf s
    · obtain ⟨w, hw⟩ := isPrefixOf_to_pref.mp hp
      have hwdrop : s.drop openTag.length = w := by
        rw [← hw, List.drop_left]
      cases hf : findClose (s.drop openTag.length) with
      | none => simp [scanPiecesF, hp, hf, assemble]
      | some cr =>
        obtain ⟨c, r⟩ := cr
        rw [hwdrop] at hf
        have hdec := findClose_decomp w c r hf
        have hslen : s.length = 9 + w.length := by
          rw [← hw, List.length_append]
          rfl
        have hwlen : w.length = c.length + 10 + r.length := by
          rw [hdec]
          simp [List.length_append, closeTag]
          omega
        have hrlen : r.length ≤ f := by omega
        rcases hsc : scanPiecesF f r with ⟨ps, t⟩
        have hihr : assemble ps t = r := by
          have := ih r hrlen
          rw [hsc] at this
          exact this
        have hout : scanPiecesF (f + 1) s = (([], c) :: ps, t) := by
          simp [scanPiecesF, hp, hwdrop, hf, hsc]
        rw [hout]
        simp only [assemble, List.nil_append]
        rw [hihr, ← hw, hdec]
        simp [List.append_assoc]
    · cases s with
      | nil => rfl
      | cons ch rest =>
        rcases hsc : scanPiecesF f rest with ⟨ps, t⟩
        have hihr : assemble ps t = rest := by
          have := ih rest (by simp at hs; omega)
          rw [hsc] at this
          exact this
        cases ps with
        | nil =>
          have hout : scanPiecesF (f + 1) (ch :: rest) = ([], ch :: t) := by
            simp [scanPiecesF, hp, hsc]
          rw [hout]
          simp only [assemble]
          simp only [assemble] at hihr
          rw [hihr]
        | cons pc ps' =>
          obtain ⟨a, c⟩ := pc
          have hout : scanPiecesF (f + 1) (ch :: rest) = ((ch :: a, c) :: ps', t) := by
            simp [scanPiecesF, hp, hsc]
          rw [hout]
          simp only [assemble] at hihr ⊢
          rw [List.cons_append, List.cons_append, List.cons_append, List.cons_append, hihr]

/-- Reassembling a scan recovers the input. -/
theorem assemble_scan (s : List Char) :
    assemble (scanPieces s).1 (scanPieces s).2 = s :=
  assemble_scanF s.length s (Nat.le_refl _)

/-- Scanning without finding a directive strips nothing. -/
theorem strip_spec_of_no_pieces {s : List Char} (h : (scanPieces s).1 = []) :
    strip_spec s = s := by
  have ha := assemble_scan s
  rw [h] at ha
  unfold strip_spec
  rw [h]
  exact ha

/-- C6 as amended: `clean_answer` is the answer with, for each extracted
call text in extraction order, *every* occurrence of its
`<ToolUse>{call}</ToolUse>` pattern removed; provided no extracted call
text contains a tag delimiter and the stripped text contains no open tag
(so no removal can create or destroy further matches), this equals the
answer with exactly the matched directive substrings removed and the
surrounding text preserved in order — in particular the scenario
`"ok <ToolUse>callA</ToolUse> done"` yields `"ok  done"`. -/
theorem C6_strip_amended :
    ∀ (answer : List Char) (registry : ToolRegistry) (env : Nat → TaskOutcome),
      (∀ c ∈ extract_tool_uses answer, ¬ openTag <:+: c ∧ ¬ closeTag <:+: c) →
      ¬ openTag <:+: strip_spec answer →
      (get_tool_answer answer registry env).1 = strip_spec answer := by
  intro answer registry env hcalls hJ
  cases hE : extract_tool_uses answer with
  | nil =>
    have hpieces : (scanPieces answer).1 = [] := by
      have := hE
      unfold extract_tool_uses at this
      exact List.map_eq_nil_iff.mp this
    unfold get_tool_answer
    rw [hE, strip_spec_of_no_pieces hpieces]
  | cons c0 cs0 =>
    have hfold : (get_tool_answer answer registry env).1 =
        List.foldl (fun acc c => removeAll (dirPat c) acc) answer (c0 :: cs0) := by
      unfold get_tool_answer
      rw [hE]
      rfl
    rw [hfold]
    have hJ' : ¬ openTag <:+: segsJoin (scanPieces answer).1 (scanPieces answer).2 := hJ
    have hps : ∀ p ∈ (scanPieces answer).1,
        ¬ openTag <:+: p.2 ∧ ¬ closeTag <:+: p.2 := by
      intro p hp
      exact hcalls p.2 (List.mem_map_of_mem Prod.snd hp)
    have hstart : answer = residual (scanPieces answer).1 (scanPieces answer).2 [] := by
      rw [residual_nil_done]
      exact (assemble_scan answer).symm
    conv_lhs => rw [hstart]
    rw [strip_fold (scanPieces answer).1 (scanPieces answer).2 hJ' hps
      (c0 :: cs0) [] (fun x hx => hcalls x (by rw [hE]; exact hx))]
    apply residual_all_done
    intro p hp
    rw [List.mem_append]
    left
    rw [List.mem_reverse, ← hE]
    exact List.mem_map_of_mem Prod.snd hp

/-- C6 witness: the spec's scenario, satisfying the amended side
conditions. -/
theorem C6_strip_amended_witness :
    (∀ c ∈ extract_tool_uses "ok <ToolUse>callA</ToolUse> done".toList,
        ¬ openTag <:+: c ∧ ¬ closeTag <:+: c) ∧
      ¬ openTag <:+: strip_spec "ok <ToolUse>callA</ToolUse> done".toList ∧
      (get_tool_answer "ok <ToolUse>callA</ToolUse> done".toList []
          (fun _ => TaskOutcome.joined (Except.ok Json.null))).1 = "ok  done".toList :=
  ⟨by decide, by decide,
    (C6_strip_amended "ok <ToolUse>callA</ToolUse> done".toList []
        (fun _ => TaskOutcome.joined (Except.ok Json.null)) (by decide) (by decide)).trans
      (by decide)⟩

end Rhine
